import Mathlib

/-!
# Verification of the p2pmsg peer-messaging core

A shallow embedding, in Lean 4, of the p2pmsg repository's core:

* the message model (`src/p2pmsg-lib/src/protocol/message.rs`),
* the newline-framed JSON codec (`src/p2pmsg-lib/src/protocol/codec.rs`),
* the connection registry `OpenConnections`, the dispatch loop and the
  connection handler (`src/p2pmsg-lib/src/client.rs`).

Strings and byte buffers are modelled as `List Char` (a Rust `String` is a
sequence of Unicode scalar values, exactly what `List Char` is).  The wire
delimiter is the byte `0x0A`; in UTF-8 this byte occurs only as the
encoding of the character `'\n'` itself (continuation bytes are ≥ 0x80),
so scanning chars for `'\n'` is faithful to the byte-level scan
`buf.iter().position(|b| *b == b'\n')` of the source.

Serialization is `serde_json` with the default externally-tagged enum
representation: `Message::Ping` serializes to `"Ping"` (likewise `Pong`,
`Terminate`) and `Message::Hello { msg }` to `{"Hello":{"msg":"…"}}` with
serde's JSON string escaping.  The encoder model below reproduces serde's
escaping table; the decoder models `serde_json::from_slice` restricted to
this enum (whitespace between tokens is accepted as serde does; `\uXXXX`
escapes are parsed except surrogate pairs, which the encoder never
emits).

The file is organised as definitions first (the embedding), then helper
lemmas, then one theorem per specification claim.
-/

namespace P2pmsg

/-- Model of `Message` from `protocol/message.rs`: the four protocol
variants. -/
inductive Message where
  | Hello (msg : List Char)
  | Ping
  | Pong
  | Terminate
deriving DecidableEq, Repr

/-- Lowercase hex digit, as in serde_json's escape table `0123456789abcdef`:
digits 0–9 are codepoints 48–57, digits 10–15 are `a`–`f`, codepoints
97–102. -/
def hexDigitLower (n : Nat) : Char :=
  Char.ofNat (if n < 10 then 48 + n else 87 + n)

/-- Model of serde_json's escaping of one character inside a JSON string
literal: `"` and `\` get a backslash escape, control characters below 0x20
get the short escapes `\b \t \n \f \r` where they exist and `\u00xx`
otherwise, every other character is emitted verbatim. -/
def escChar (c : Char) : List Char :=
  if c = '"' then ['\\', '"']
  else if c = '\\' then ['\\', '\\']
  else if c.toNat < 0x20 then
    if c.toNat = 0x08 then ['\\', 'b']
    else if c.toNat = 0x09 then ['\\', 't']
    else if c.toNat = 0x0A then ['\\', 'n']
    else if c.toNat = 0x0C then ['\\', 'f']
    else if c.toNat = 0x0D then ['\\', 'r']
    else ['\\', 'u', '0', '0', hexDigitLower (c.toNat / 16), hexDigitLower (c.toNat % 16)]
  else [c]

/-- Model of serde_json's escaping of a whole string body. -/
def escStr (s : List Char) : List Char := s.flatMap escChar

/-- Model of `serde_json::to_string` on a `Message` (externally tagged
enum). -/
def toJsonString : Message → List Char
  | .Hello s => "\x7b\"Hello\":\x7b\"msg\":\"".toList ++ escStr s ++ "\"\x7d\x7d".toList
  | .Ping => "\"Ping\"".toList
  | .Pong => "\"Pong\"".toList
  | .Terminate => "\"Terminate\"".toList

/-- Value of a hex digit character, as accepted by serde's `\u` escape
(serde's `decode_hex_val` matches the byte ranges `0-9`, `a-f`, `A-F`). -/
def hexVal (c : Char) : Option Nat :=
  if 48 ≤ c.toNat ∧ c.toNat ≤ 57 then some (c.toNat - 48)
  else if 97 ≤ c.toNat ∧ c.toNat ≤ 102 then some (c.toNat - 87)
  else if 65 ≤ c.toNat ∧ c.toNat ≤ 70 then some (c.toNat - 55)
  else none

/-- Parser for the body of a JSON string literal (the opening `"` already
consumed); returns the unescaped characters and the input remaining after
the closing `"`.  Models serde_json: raw control characters are rejected,
the escapes after a backslash (quote, backslash, slash, `b f n r t` and
`uXXXX`) are accepted; lone surrogate escapes are rejected (serde's
surrogate-pair recombination is not modelled — the encoder never emits
surrogate escapes). -/
def parseStringBody : List Char → Option (List Char × List Char)
  | [] => none
  | c :: rest =>
    if c = '"' then some ([], rest)
    else if c = '\\' then
      match rest with
      | [] => none
      | e :: rest₁ =>
        if e = '"' then (fun p => ('"' :: p.1, p.2)) <$> parseStringBody rest₁
        else if e = '\\' then (fun p => ('\\' :: p.1, p.2)) <$> parseStringBody rest₁
        else if e = '/' then (fun p => ('/' :: p.1, p.2)) <$> parseStringBody rest₁
        else if e = 'b' then (fun p => (Char.ofNat 0x08 :: p.1, p.2)) <$> parseStringBody rest₁
        else if e = 'f' then (fun p => (Char.ofNat 0x0C :: p.1, p.2)) <$> parseStringBody rest₁
        else if e = 'n' then (fun p => (Char.ofNat 0x0A :: p.1, p.2)) <$> parseStringBody rest₁
        else if e = 'r' then (fun p => (Char.ofNat 0x0D :: p.1, p.2)) <$> parseStringBody rest₁
        else if e = 't' then (fun p => (Char.ofNat 0x09 :: p.1, p.2)) <$> parseStringBody rest₁
        else if e = 'u' then
          match rest₁ with
          | h₁ :: h₂ :: h₃ :: h₄ :: rest₂ =>
            match hexVal h₁, hexVal h₂, hexVal h₃, hexVal h₄ with
            | some a, some b, some c', some d =>
              let v := ((a * 16 + b) * 16 + c') * 16 + d
              if 0xD800 ≤ v ∧ v < 0xE000 then none
              else (fun p => (Char.ofNat v :: p.1, p.2)) <$> parseStringBody rest₂
            | _, _, _, _ => none
          | _ => none
        else none
    else if c.toNat < 0x20 then none
    else (fun p => (c :: p.1, p.2)) <$> parseStringBody rest

/-- Test for JSON insignificant whitespace. -/
def isJsonWS (c : Char) : Bool :=
  c = ' ' ∨ c = '\t' ∨ c = '\n' ∨ c = '\r'

/-- Skip insignificant whitespace, as serde_json does between tokens. -/
def skipWS (l : List Char) : List Char := l.dropWhile isJsonWS

/-- Expect one literal character (after skipping whitespace). -/
def expectTok (c : Char) (l : List Char) : Option (List Char) :=
  match skipWS l with
  | c' :: rest => if c' = c then some rest else none
  | [] => none

/-- Model of `serde_json::from_slice::<Message>` on one frame payload,
restricted to this enum's externally-tagged representation: either a JSON
string equal to the name of a unit variant, or the object
`{"Hello":{"msg": <string>}}`.  Any other input is a deserialization error
(`none`). -/
def parseMessage (l : List Char) : Option Message :=
  match skipWS l with
  | '"' :: rest =>
    match parseStringBody rest with
    | some (s, rest₁) =>
      if (skipWS rest₁).isEmpty then
        if s = "Ping".toList then some .Ping
        else if s = "Pong".toList then some .Pong
        else if s = "Terminate".toList then some .Terminate
        else none
      else none
    | none => none
  | '\x7b' :: rest => do
    let rest ← expectTok '"' rest
    let (name, rest) ← parseStringBody rest
    if name = "Hello".toList then do
      let rest ← expectTok ':' rest
      let rest ← expectTok '\x7b' rest
      let rest ← expectTok '"' rest
      let (field, rest) ← parseStringBody rest
      if field = "msg".toList then do
        let rest ← expectTok ':' rest
        let rest ← expectTok '"' rest
        let (s, rest) ← parseStringBody rest
        let rest ← expectTok '\x7d' rest
        let rest ← expectTok '\x7d' rest
        if (skipWS rest).isEmpty then some (.Hello s) else none
      else none
    else none
  | _ => none

/-- State of the `MsgCodec` decoder (`protocol/codec.rs`): `next_pos` is
the scan cursor recording how far the buffer has already been searched for
the delimiter. -/
structure MsgCodec where
  next_pos : Nat
deriving DecidableEq, Repr

/-- Model of `MsgCodec::new()`. -/
def MsgCodec.new : MsgCodec := { next_pos := 0 }

/-- One encoded frame: the serde_json text of the message followed by the
`b'\n'` delimiter, exactly the bytes `MsgCodec::encode` appends. -/
def encodeFrame (m : Message) : List Char := toJsonString m ++ ['\n']

/-- Model of `MsgCodec::encode`: serialize, then append payload and one
delimiter byte to the output buffer.  (`serde_json::to_string` cannot fail
on this enum, so the `Err` branch of the source is unreachable and the
result is always `Ok`.) -/
def MsgCodec.encode (self : MsgCodec) (item : Message) (buf : List Char) :
    MsgCodec × List Char × Except Unit Unit :=
  (self, buf ++ encodeFrame item, .ok ())

/-- Position of the first `'\n'`; models
`buf[next_pos..].iter().position(|b| *b == b'\n')`. -/
def findNL : List Char → Option Nat
  | [] => none
  | c :: rest => if c = '\n' then some 0 else (· + 1) <$> findNL rest

/-- Model of `MsgCodec::decode` (`protocol/codec.rs` lines 37–54): scan
`buf[next_pos..]` for the delimiter; if absent, set `next_pos` to the
buffer length and return `Ok(None)` (need more bytes); if found at overall
offset `pos`, reset `next_pos` to 0, consume bytes `[0, pos]` from the
buffer (`split_to(pos + 1)`) and parse bytes `[0, pos)` as a `Message`,
returning `Ok(Some(m))` or propagating the serde error.  Returns the
updated codec state, the remaining buffer and the result. -/
def MsgCodec.decode (self : MsgCodec) (buf : List Char) :
    MsgCodec × List Char × Except Unit (Option Message) :=
  match findNL (buf.drop self.next_pos) with
  | none => ({ next_pos := buf.length }, buf, .ok none)
  | some p =>
    let pos := self.next_pos + p
    let data := buf.take (pos + 1)
    let rest := buf.drop (pos + 1)
    match parseMessage (data.take pos) with
    | some m => ({ next_pos := 0 }, rest, .ok (some m))
    | none => ({ next_pos := 0 }, rest, .error ())

/-- Repeatedly call `MsgCodec::decode`, as the framed transport does: `n`
calls, collecting each call's result and threading the codec state and the
buffer. -/
def decodeAll : Nat → MsgCodec × List Char → List (Except Unit (Option Message)) × (MsgCodec × List Char)
  | 0, st => ([], st)
  | n + 1, (c, buf) =>
    let out := MsgCodec.decode c buf
    let next := decodeAll n (out.1, out.2.1)
    (out.2.2 :: next.1, next.2)

/-- Model of `std::net::SocketAddr`, restricted to the V4 form the program
builds (`SocketAddr::from(([127, 0, 0, 1], port))` and parsed `host:port`
peers). -/
structure SocketAddr where
  a : Nat
  b : Nat
  c : Nat
  d : Nat
  port : Nat
deriving DecidableEq, Repr

/-- Display form of a V4 socket address: `"a.b.c.d:port"`, as interpolated
by the `"{}"` placeholder of `format!`. -/
def SocketAddr.display (s : SocketAddr) : List Char :=
  (toString s.a).toList ++ '.' :: (toString s.b).toList ++ '.' ::
    (toString s.c).toList ++ '.' :: (toString s.d).toList ++ ':' ::
    (toString s.port).toList

/-- Model of the write half of a framed connection (`PeerWriter =
SplitSink<Framed<TcpStream, MsgCodec>, Message>`), modelled by the bytes it
has written to the socket.  `send` runs the sink: it encodes the message
with `MsgCodec::encode` and writes the frame.  (Transport write failures
are not modelled; the registry claims concern the registry logic.) -/
structure PeerWriter where
  sent : List Char
deriving DecidableEq, Repr

/-- Model of `SplitSink::send` through the codec: append one encoded
frame. -/
def PeerWriter.send (w : PeerWriter) (m : Message) : PeerWriter :=
  { sent := w.sent ++ encodeFrame m }

/-- Model of the single-use terminator endpoint
(`ActivePeerTerminator = oneshot::Sender<PeerWriter>`), identified
abstractly. -/
structure Terminator where
  id : Nat
deriving DecidableEq, Repr

/-- Model of `ActivePeer` (client.rs lines 25–32): one live, registered
connection. -/
structure ActivePeer where
  adr : SocketAddr
  terminator : Terminator
  writer : PeerWriter
deriving DecidableEq, Repr

/-- Model of `ActivePeer::send`: forwards to the writer. -/
def ActivePeer.send (ap : ActivePeer) (m : Message) : ActivePeer :=
  { ap with writer := ap.writer.send m }

/-- Model of the `HashMap<SocketAddr, ActivePeer>` inside
`OpenConnections`, as an association list. -/
abbrev Registry := List (SocketAddr × ActivePeer)

/-- Model of `HashMap::get`. -/
def Registry.lookup : Registry → SocketAddr → Option ActivePeer
  | [], _ => none
  | e :: rest, k => if e.1 = k then some e.2 else Registry.lookup rest k

/-- Model of `HashMap::insert`: replace the value if the key is present
(the old value is discarded by the caller), otherwise add the pair. -/
def Registry.insert : Registry → SocketAddr → ActivePeer → Registry
  | [], k, v => [(k, v)]
  | e :: rest, k, v => if e.1 = k then (k, v) :: rest else e :: Registry.insert rest k v

/-- Model of `HashMap::remove`: drop the entry and return it. -/
def Registry.remove : Registry → SocketAddr → Registry × Option ActivePeer
  | [], _ => ([], none)
  | e :: rest, k =>
    if e.1 = k then (rest, some e.2)
    else
      let r := Registry.remove rest k
      (e :: r.1, r.2)

/-- Model of `HashMap::get_mut` followed by mutating the entry in
place. -/
def Registry.update : Registry → SocketAddr → (ActivePeer → ActivePeer) → Registry
  | [], _, _ => []
  | e :: rest, k, f => if e.1 = k then (e.1, f e.2) :: rest else e :: Registry.update rest k f

/-- Model of `OpenConnections` (client.rs lines 51–54): a handle to the map
of active peers.  In the source the map sits behind `Arc<RwLock<…>>` and
all operations lock it; the lock's mutual exclusion is abstracted by
passing the state explicitly through each operation. -/
structure OpenConnections where
  sinks : Registry
deriving DecidableEq, Repr

/-- Model of `OpenConnections::new()`. -/
def OpenConnections.new : OpenConnections := ⟨[]⟩

/-- Model of `OpenConnections::add_new` (client.rs lines 63–66):
`sinks.insert(peer, ActivePeer { adr: peer, writer, terminator })`.  The
old entry, if one existed, is silently dropped: the `Option<ActivePeer>`
returned by `HashMap::insert` is discarded and the function returns
`()`. -/
def OpenConnections.add_new (self : OpenConnections) (peer : SocketAddr)
    (writer : PeerWriter) (terminator : Terminator) : OpenConnections :=
  ⟨self.sinks.insert peer ⟨peer, terminator, writer⟩⟩

/-- Model of `OpenConnections::remove` (client.rs lines 68–71). -/
def OpenConnections.remove (self : OpenConnections) (peer : SocketAddr) :
    OpenConnections × Option ActivePeer :=
  let r := self.sinks.remove peer
  (⟨r.1⟩, r.2)

/-- Text of the error built by `OpenConnections::send` on a miss
(client.rs line 76), interpolating the address — note the exact wording,
capital C and trailing space. -/
def connNotAvailableMsg (dst : SocketAddr) : List Char :=
  "Connection to ".toList ++ dst.display ++ " is not available ".toList

/-- Model of `OpenConnections::send` (client.rs lines 73–78).  Faithful to
the source: the body locks and reads `OPEN_CONNECTION` — the process-wide
global registry declared in `lazy_static!` (lines 152–154) — not
`self.sinks`; the `self` receiver is never used.  On a hit the message is
written through the entry's writer (`s.send(msg).await`); on a miss the
formatted "not available" error is returned and nothing is written.  The
global registry's state is threaded explicitly. -/
def OpenConnections.send (self : OpenConnections) (globalReg : OpenConnections)
    (dst : SocketAddr) (msg : Message) : OpenConnections × Except (List Char) Unit :=
  match globalReg.sinks.lookup dst with
  | some _ => (⟨globalReg.sinks.update dst (fun ap => ap.send msg)⟩, .ok ())
  | none => (globalReg, .error (connNotAvailableMsg dst))

/-- Effect of the terminator firing inside `handle_connection` (client.rs
lines 120–131): the handler task receives the writer back over the
one-shot channel, writes one final `Terminate` frame (best-effort: a
failure is only logged), reunites the halves and shuts the socket down in
both directions. -/
structure TermOutcome where
  finalWriter : PeerWriter
  shutdownBoth : Bool
deriving DecidableEq, Repr

/-- Model of the terminator branch `Either::Right((Ok(writer), _))`. -/
def handlerOnTerminator (w : PeerWriter) : TermOutcome :=
  { finalWriter := w.send .Terminate, shutdownBoth := true }

/-- One step of the dispatch loop (`receiving_loop` in `run_client`,
client.rs lines 173–197) on an inbound `(msg, peer)` pair: `Hello` is a
logged protocol violation, `Ping` replies `Pong` via
`OPEN_CONNECTION.send` (a failure is logged, not retried), `Pong` is
informational, `Terminate` removes the peer's entry and — if one was
present — fires its terminator (`ap.close()`), whose receiving handler
performs the final write and shutdown.  Returns the updated global
registry and the terminator outcome, if any. -/
def dispatchStep (globalReg : OpenConnections) (msg : Message) (peer : SocketAddr) :
    OpenConnections × Option TermOutcome :=
  match msg with
  | .Hello _ => (globalReg, none)
  | .Ping => ((OpenConnections.send globalReg globalReg peer .Pong).1, none)
  | .Pong => (globalReg, none)
  | .Terminate =>
    match globalReg.remove peer with
    | (g', some ap) => (g', some (handlerOnTerminator ap.writer))
    | (g', none) => (g', none)

/-- Registry mutations the source performs: `add_new` on a completed
handshake, `remove` on close / Terminate. -/
inductive RegOp where
  | add (peer : SocketAddr) (w : PeerWriter) (t : Terminator)
  | rem (peer : SocketAddr)
deriving Repr

/-- Apply one registry operation. -/
def applyOp (g : OpenConnections) : RegOp → OpenConnections
  | .add p w t => g.add_new p w t
  | .rem p => (g.remove p).1

/-- Apply a sequence of registry operations, oldest first. -/
def applyOps (g : OpenConnections) (ops : List RegOp) : OpenConnections :=
  ops.foldl applyOp g

/-- Outcome of one `reader.next().await` on the framed read half: a decoded
message (`Some(Ok(m))`), a decode/transport error (`Some(Err(e))`), or end
of stream (`None`). -/
inductive ReadEvent where
  | msg (m : Message)
  | readErr
  | eof
deriving DecidableEq, Repr

/-- One event consumed by the handler's select race in the `Registered`
loop (client.rs lines 106–138): the read half yields (`Either::Left`), the
terminator fires with the writer (`Either::Right(Ok)`), or the terminator
channel errors (`Either::Right(Err)`). -/
inductive LoopEvent where
  | read (r : ReadEvent)
  | term
  | termErr
deriving DecidableEq, Repr

/-- Model of the read/terminate race loop of `handle_connection`
(client.rs lines 106–138) over an explicit event sequence: a decoded
message is forwarded to the dispatch loop's channel and the loop
continues; a stream error is logged and the loop continues; EOF and both
terminator outcomes break.  Returns the messages forwarded to the dispatch
loop, in order. -/
def handlerLoopForwards : List LoopEvent → List Message
  | [] => []
  | .read (.msg m) :: rest => m :: handlerLoopForwards rest
  | .read .readErr :: rest => handlerLoopForwards rest
  | .read .eof :: _ => []
  | .term :: _ => []
  | .termErr :: _ => []

/-- Model of `handle_connection` after the local Hello was written
successfully (client.rs lines 96–143): the first decoded item is matched
once; `Some(Ok(Hello))` registers the peer in `OPEN_CONNECTION`, while ANY
other outcome (another message, a decode/transport error, or EOF) only
logs "invalid handshake" — and in both cases control falls through into
the read/terminate loop.  Returns whether the peer was registered and the
messages subsequently forwarded to the dispatch loop. -/
def handlerAfterHello (first : ReadEvent) (events : List LoopEvent) :
    Bool × List Message :=
  match first with
  | .msg (.Hello _) => (true, handlerLoopForwards events)
  | _ => (false, handlerLoopForwards events)

/-- Possible outcomes of the entry of `handle_connection` (client.rs line
85), where the peer address is obtained by
`socket.peer_addr().unwrap()`. -/
inductive HandlerEntry where
  | panicked
  | proceeded (peer : SocketAddr)
deriving DecidableEq, Repr

/-- Model of the first line of `handle_connection`,
`let peer = socket.peer_addr().unwrap();` — an `Err` from `peer_addr` (a
transport error) makes the `unwrap` panic instead of being reported and
tearing down only that connection. -/
def handleConnectionEntry (peerAddr : Option SocketAddr) : HandlerEntry :=
  match peerAddr with
  | some p => .proceeded p
  | none => .panicked


/-! ## Helper lemmas: the JSON layer round-trips and never emits the frame delimiter -/

theorem charToNat_ofNat {n : Nat} (h : n < 55296) : (Char.ofNat n).toNat = n := by
  simp [Char.ofNat, Char.toNat, Nat.isValidChar, h, Char.ofNatAux, UInt32.toNat,
    BitVec.toNat_ofNatLt]

theorem hexVal_hexDigitLower {n : Nat} (h : n < 16) : hexVal (hexDigitLower n) = some n := by
  unfold hexDigitLower hexVal
  rcases Nat.lt_or_ge n 10 with h10 | h10
  · simp only [if_pos h10, charToNat_ofNat (show 48 + n < 55296 by omega)]
    rw [if_pos ⟨by omega, by omega⟩]
    congr 1
    omega
  · simp only [if_neg (show ¬ n < 10 by omega),
      charToNat_ofNat (show 87 + n < 55296 by omega)]
    rw [if_neg (by omega), if_pos ⟨by omega, by omega⟩]
    congr 1
    omega

theorem hexDigitLower_ne_nl {n : Nat} (hn : n < 16) : hexDigitLower n ≠ '\n' := by
  unfold hexDigitLower
  intro heq
  have h2 := congrArg Char.toNat heq
  have h3 : Char.toNat '\n' = 10 := rfl
  rw [h3, charToNat_ofNat (by split <;> omega)] at h2
  revert h2
  split <;> omega

theorem nl_not_mem_escChar (c : Char) : '\n' ∉ escChar c := by
  unfold escChar
  split_ifs with h1 h2 h3 h4 h5 h6 h7 h8 <;> intro hmem
  · exact absurd hmem (by decide)
  · exact absurd hmem (by decide)
  · exact absurd hmem (by decide)
  · exact absurd hmem (by decide)
  · exact absurd hmem (by decide)
  · exact absurd hmem (by decide)
  · exact absurd hmem (by decide)
  · simp only [List.mem_cons, List.not_mem_nil, or_false] at hmem
    rcases hmem with h | h | h | h | h | h
    · exact absurd h (by decide)
    · exact absurd h (by decide)
    · exact absurd h (by decide)
    · exact absurd h (by decide)
    · exact absurd h (Ne.symm (hexDigitLower_ne_nl (by omega)))
    · exact absurd h (Ne.symm (hexDigitLower_ne_nl (by omega)))
  · simp only [List.mem_cons, List.not_mem_nil, or_false] at hmem
    exact h3 (hmem ▸ (by decide : Char.toNat '\n' < 32))

theorem nl_not_mem_escStr (s : List Char) : '\n' ∉ escStr s := by
  intro hmem
  rw [escStr, List.mem_flatMap] at hmem
  rcases hmem with ⟨c, -, h⟩
  exact nl_not_mem_escChar c h

theorem psb_quote (t : List Char) : parseStringBody ('"' :: t) = some ([], t) := by
  rw [parseStringBody.eq_def]
  rfl

theorem psb_esc (e : Char) (r : Char) (t : List Char)
    (he : (e = '"' ∧ r = '"') ∨ (e = '\\' ∧ r = '\\') ∨ (e = 'b' ∧ r = Char.ofNat 8) ∨
      (e = 't' ∧ r = Char.ofNat 9) ∨ (e = 'n' ∧ r = Char.ofNat 10) ∨
      (e = 'f' ∧ r = Char.ofNat 12) ∨ (e = 'r' ∧ r = Char.ofNat 13)) :
    parseStringBody ('\\' :: e :: t) = (fun p => (r :: p.1, p.2)) <$> parseStringBody t := by
  rcases he with ⟨he, hr⟩ | ⟨he, hr⟩ | ⟨he, hr⟩ | ⟨he, hr⟩ | ⟨he, hr⟩ | ⟨he, hr⟩ | ⟨he, hr⟩ <;>
    subst he <;> subst hr <;> (rw [parseStringBody.eq_def]; rfl)

theorem psb_escU (d₁ d₂ d₃ d₄ : Char) (t : List Char) :
    parseStringBody ('\\' :: 'u' :: d₁ :: d₂ :: d₃ :: d₄ :: t) =
    (match hexVal d₁, hexVal d₂, hexVal d₃, hexVal d₄ with
     | some a, some b, some c', some d =>
       let v := ((a * 16 + b) * 16 + c') * 16 + d
       if 0xD800 ≤ v ∧ v < 0xE000 then none
       else (fun p => (Char.ofNat v :: p.1, p.2)) <$> parseStringBody t
     | _, _, _, _ => none) := by
  rw [parseStringBody.eq_def]
  rfl

theorem psb_plain (c : Char) (t : List Char)
    (h1 : ¬ c = '"') (h2 : ¬ c = '\\') (h3 : ¬ c.toNat < 32) :
    parseStringBody (c :: t) = (fun p => (c :: p.1, p.2)) <$> parseStringBody t := by
  rw [parseStringBody.eq_def]
  simp [h1, h2, h3]

theorem parseStringBody_escStr (s rest : List Char) :
    parseStringBody (escStr s ++ '"' :: rest) = some (s, rest) := by
  induction s with
  | nil => exact psb_quote rest
  | cons c s ih =>
    have hcons : escStr (c :: s) = escChar c ++ escStr s := rfl
    rw [hcons, List.append_assoc]
    unfold escChar
    split_ifs with h1 h2 h3 h4 h5 h6 h7 h8
    · subst h1
      rw [List.cons_append, List.cons_append, List.nil_append,
        psb_esc '"' '"' _ (by simp), ih]
      rfl
    · subst h2
      rw [List.cons_append, List.cons_append, List.nil_append,
        psb_esc '\\' '\\' _ (by simp), ih]
      rfl
    · rw [List.cons_append, List.cons_append, List.nil_append,
        psb_esc 'b' (Char.ofNat 8) _ (by simp), ih]
      have : Char.ofNat 8 = c := by rw [← h4, Char.ofNat_toNat]
      rw [this]
      rfl
    · rw [List.cons_append, List.cons_append, List.nil_append,
        psb_esc 't' (Char.ofNat 9) _ (by simp), ih]
      have : Char.ofNat 9 = c := by rw [← h5, Char.ofNat_toNat]
      rw [this]
      rfl
    · rw [List.cons_append, List.cons_append, List.nil_append,
        psb_esc 'n' (Char.ofNat 10) _ (by simp), ih]
      have : Char.ofNat 10 = c := by rw [← h6, Char.ofNat_toNat]
      rw [this]
      rfl
    · rw [List.cons_append, List.cons_append, List.nil_append,
        psb_esc 'f' (Char.ofNat 12) _ (by simp), ih]
      have : Char.ofNat 12 = c := by rw [← h7, Char.ofNat_toNat]
      rw [this]
      rfl
    · rw [List.cons_append, List.cons_append, List.nil_append,
        psb_esc 'r' (Char.ofNat 13) _ (by simp), ih]
      have : Char.ofNat 13 = c := by rw [← h8, Char.ofNat_toNat]
      rw [this]
      rfl
    · simp only [List.cons_append, List.nil_append]
      rw [psb_escU, hexVal_hexDigitLower (show c.toNat / 16 < 16 by omega),
        hexVal_hexDigitLower (show c.toNat % 16 < 16 by omega)]
      have h0 : hexVal '0' = some 0 := by decide
      rw [h0]
      simp only []
      have hval : ((0 * 16 + 0) * 16 + c.toNat / 16) * 16 + c.toNat % 16 = c.toNat := by omega
      rw [if_neg (by omega), ih]
      simp only [Option.map_some]
      rw [hval, Char.ofNat_toNat]
    · rw [List.cons_append, psb_plain c _ h1 h2 h3, List.nil_append, ih]
      rfl

theorem parseMessage_toJsonString (m : Message) : parseMessage (toJsonString m) = some m := by
  cases m with
  | Ping => rfl
  | Pong => rfl
  | Terminate => rfl
  | Hello s =>
    show parseMessage ('\x7b' :: '"' :: 'H' :: 'e' :: 'l' :: 'l' :: 'o' :: '"' :: ':' ::
      '\x7b' :: '"' :: 'm' :: 's' :: 'g' :: '"' :: ':' :: '"' ::
      (escStr s ++ '"' :: '\x7d' :: '\x7d' :: [])) = some (.Hello s)
    rw [parseMessage.eq_def]
    simp +decide [skipWS, isJsonWS, List.dropWhile, expectTok, psb_plain, psb_quote,
      parseStringBody_escStr, Option.bind]

/-! ## Helper lemmas: framing — one decode call consumes exactly one delimited frame -/

theorem nl_not_mem_toJsonString (m : Message) : '\n' ∉ toJsonString m := by
  cases m with
  | Hello s =>
    intro hm
    simp only [toJsonString, List.mem_append] at hm
    rcases hm with (h | h) | h
    · exact absurd h (by decide)
    · exact nl_not_mem_escStr s h
    · exact absurd h (by decide)
  | Ping => decide
  | Pong => decide
  | Terminate => decide

theorem findNL_append_nl {l : List Char} (h : '\n' ∉ l) (r : List Char) :
    findNL (l ++ '\n' :: r) = some l.length := by
  induction l with
  | nil => simp [findNL]
  | cons c t ih =>
    have hc : ¬ c = '\n' := fun hce => h (hce ▸ List.mem_cons_self c t)
    rw [List.cons_append, findNL]
    simp [hc, ih (fun hm => h (List.mem_cons_of_mem c hm))]

theorem findNL_eq_none {l : List Char} (h : '\n' ∉ l) : findNL l = none := by
  induction l with
  | nil => rfl
  | cons c t ih =>
    have hc : ¬ c = '\n' := fun hce => h (hce ▸ List.mem_cons_self c t)
    rw [findNL]
    simp [hc, ih (fun hm => h (List.mem_cons_of_mem c hm))]

theorem decode_one_frame {p : List Char} (hn : '\n' ∉ p) (rest : List Char) :
    MsgCodec.decode ⟨0⟩ (p ++ '\n' :: rest) =
      (⟨0⟩, rest,
        match parseMessage p with
        | some m => .ok (some m)
        | none => .error ()) := by
  have hassoc : p ++ '\n' :: rest = (p ++ ['\n']) ++ rest := by simp
  have hlen : (p ++ ['\n']).length = p.length + 1 := by simp
  have htake : (p ++ '\n' :: rest).take (p.length + 1) = p ++ ['\n'] := by
    rw [hassoc, ← hlen]
    exact List.take_left _ _
  have hdrop : (p ++ '\n' :: rest).drop (p.length + 1) = rest := by
    rw [hassoc, ← hlen]
    exact List.drop_left _ _
  have htake2 : (p ++ ['\n']).take p.length = p := List.take_left _ _
  unfold MsgCodec.decode
  rw [show (⟨0⟩ : MsgCodec).next_pos = 0 from rfl, List.drop_zero,
    findNL_append_nl hn]
  simp only [Nat.zero_add, htake, hdrop, htake2]
  cases parseMessage p <;> rfl

theorem decode_frame (m : Message) (rest : List Char) :
    MsgCodec.decode ⟨0⟩ (encodeFrame m ++ rest) = (⟨0⟩, rest, .ok (some m)) := by
  have h : encodeFrame m ++ rest = toJsonString m ++ '\n' :: rest := by
    simp [encodeFrame]
  rw [h, decode_one_frame (nl_not_mem_toJsonString m) rest, parseMessage_toJsonString]

/-! ## Helper lemmas: the connection registry -/

theorem Registry.remove_snd (r : Registry) (k : SocketAddr) :
    (Registry.remove r k).2 = Registry.lookup r k := by
  induction r with
  | nil => rfl
  | cons e rest ih =>
    rw [Registry.remove, Registry.lookup]
    by_cases he : e.1 = k
    · simp [he]
    · simp [he, ih]

theorem Registry.remove_of_lookup_none {r : Registry} {k : SocketAddr}
    (h : Registry.lookup r k = none) : Registry.remove r k = (r, none) := by
  induction r with
  | nil => rfl
  | cons e rest ih =>
    rw [Registry.lookup] at h
    by_cases he : e.1 = k
    · rw [if_pos he] at h
      cases h
    · rw [if_neg he] at h
      rw [Registry.remove, if_neg he]
      simp [ih h]

theorem Registry.lookup_eq_none_of_not_mem {r : Registry} {k : SocketAddr}
    (h : k ∉ r.map Prod.fst) : Registry.lookup r k = none := by
  induction r with
  | nil => rfl
  | cons e rest ih =>
    simp only [List.map_cons, List.mem_cons] at h
    push_neg at h
    rw [Registry.lookup, if_neg (fun he => h.1 he.symm)]
    exact ih h.2

theorem Registry.lookup_remove_self {r : Registry}
    (h : (r.map Prod.fst).Nodup) (k : SocketAddr) :
    Registry.lookup (Registry.remove r k).1 k = none := by
  induction r with
  | nil => rfl
  | cons e rest ih =>
    simp only [List.map_cons, List.nodup_cons] at h
    rw [Registry.remove]
    by_cases he : e.1 = k
    · simp only [if_pos he]
      exact Registry.lookup_eq_none_of_not_mem (he ▸ h.1)
    · simp only [if_neg he]
      rw [Registry.lookup, if_neg he]
      exact ih h.2

theorem Registry.lookup_update_self (r : Registry) (k : SocketAddr)
    (f : ActivePeer → ActivePeer) :
    Registry.lookup (Registry.update r k f) k = (Registry.lookup r k).map f := by
  induction r with
  | nil => rfl
  | cons e rest ih =>
    rw [Registry.update, Registry.lookup]
    by_cases he : e.1 = k
    · simp [he, Registry.lookup]
    · simp only [if_neg he]
      rw [Registry.lookup, if_neg he, ih]

theorem Registry.lookup_insert_self (r : Registry) (k : SocketAddr) (v : ActivePeer) :
    Registry.lookup (Registry.insert r k v) k = some v := by
  induction r with
  | nil => simp [Registry.insert, Registry.lookup]
  | cons e rest ih =>
    rw [Registry.insert]
    by_cases he : e.1 = k
    · simp [he, Registry.lookup]
    · rw [if_neg he, Registry.lookup, if_neg he]
      exact ih

theorem Registry.mem_keys_insert (r : Registry) (k : SocketAddr) (v : ActivePeer)
    (x : SocketAddr) :
    x ∈ (Registry.insert r k v).map Prod.fst ↔ x = k ∨ x ∈ r.map Prod.fst := by
  induction r with
  | nil => simp [Registry.insert]
  | cons e rest ih =>
    rw [Registry.insert]
    by_cases he : e.1 = k
    · subst he
      simp
    · simp only [if_neg he, List.map_cons, List.mem_cons, ih]
      tauto

theorem Registry.nodup_keys_insert {r : Registry}
    (h : (r.map Prod.fst).Nodup) (k : SocketAddr) (v : ActivePeer) :
    ((Registry.insert r k v).map Prod.fst).Nodup := by
  induction r with
  | nil => simp [Registry.insert]
  | cons e rest ih =>
    simp only [List.map_cons, List.nodup_cons] at h
    rw [Registry.insert]
    by_cases he : e.1 = k
    · simp only [if_pos he, List.map_cons, List.nodup_cons]
      exact ⟨he ▸ h.1, h.2⟩
    · simp only [if_neg he, List.map_cons, List.nodup_cons, Registry.mem_keys_insert]
      exact ⟨fun hc => hc.elim he h.1, ih h.2⟩

theorem Registry.keys_remove_sublist (r : Registry) (k : SocketAddr) :
    ((Registry.remove r k).1.map Prod.fst).Sublist (r.map Prod.fst) := by
  induction r with
  | nil => simp [Registry.remove]
  | cons e rest ih =>
    rw [Registry.remove]
    by_cases he : e.1 = k
    · simp only [if_pos he, List.map_cons]
      exact List.sublist_cons_self _ _
    · simp only [if_neg he, List.map_cons]
      exact ih.cons₂ _

theorem Registry.nodup_keys_remove {r : Registry}
    (h : (r.map Prod.fst).Nodup) (k : SocketAddr) :
    (((Registry.remove r k).1).map Prod.fst).Nodup :=
  h.sublist (Registry.keys_remove_sublist r k)

theorem nodup_keys_applyOp {g : OpenConnections}
    (h : (g.sinks.map Prod.fst).Nodup) (op : RegOp) :
    (((applyOp g op).sinks).map Prod.fst).Nodup := by
  cases op with
  | add p w t => exact Registry.nodup_keys_insert h p _
  | rem p => exact Registry.nodup_keys_remove h p

theorem nodup_keys_applyOps (ops : List RegOp) :
    ∀ {g : OpenConnections}, (g.sinks.map Prod.fst).Nodup →
      (((applyOps g ops).sinks).map Prod.fst).Nodup := by
  induction ops with
  | nil => intro g h; exact h
  | cons op rest ih =>
    intro g h
    exact ih (nodup_keys_applyOp h op)

/-! ## Claim theorems -/

/-- Claim C2: for every `Message` m — each of the four variants, with
Hello's text arbitrary — encoding m with `MsgCodec::encode` into an empty
buffer and then calling `MsgCodec::decode` on that buffer returns the
structurally identical message m and leaves the buffer empty (the codec
ends back in its initial state). -/
theorem C2_encode_decode_roundtrip (m : Message) :
    MsgCodec.encode MsgCodec.new m [] = (MsgCodec.new, encodeFrame m, .ok ()) ∧
    MsgCodec.decode MsgCodec.new (encodeFrame m) = (MsgCodec.new, [], .ok (some m)) := by
  constructor
  · rfl
  · have h := decode_frame m []
    rw [List.append_nil] at h
    exact h

/-- Claim C7: for every list of messages, the buffer that concatenates
their encoded frames decodes, over one `MsgCodec::decode` call per frame,
to exactly those messages in order, and the next call returns `Ok(None)`
(the need-more-bytes signal, not an error) on the empty remainder. -/
theorem C7_multi_frame (msgs : List Message) :
    decodeAll (msgs.length + 1) (MsgCodec.new, msgs.flatMap encodeFrame) =
      (msgs.map (fun m => .ok (some m)) ++ [.ok none], (MsgCodec.new, [])) := by
  induction msgs with
  | nil =>
    simp only [List.length_nil, List.flatMap_nil, List.map_nil, List.nil_append]
    rfl
  | cons m t ih =>
    simp only [List.length_cons, List.flatMap_cons, List.map_cons, List.cons_append]
    have hstep : MsgCodec.decode MsgCodec.new (encodeFrame m ++ t.flatMap encodeFrame) =
        (MsgCodec.new, t.flatMap encodeFrame, .ok (some m)) := decode_frame m _
    show decodeAll (t.length + 1 + 1) (MsgCodec.new, encodeFrame m ++ t.flatMap encodeFrame) = _
    rw [decodeAll]
    simp only [hstep, ih]

/-- Claim C3: for a buffer holding a valid frame, then a
delimiter-terminated malformed frame, then a valid frame, three successive
`MsgCodec::decode` calls yield the first message, exactly one decode error
for the malformed frame (whose bytes are consumed through its delimiter,
with the scan cursor reset to 0), and then the second message, ending with
an empty buffer: the malformed frame does not corrupt subsequent
framing. -/
theorem C3_malformed_frame_isolation (p₁ g p₂ : List Char) (m₁ m₂ : Message)
    (h₁n : '\n' ∉ p₁) (hgn : '\n' ∉ g) (h₂n : '\n' ∉ p₂)
    (h₁ : parseMessage p₁ = some m₁) (hg : parseMessage g = none)
    (h₂ : parseMessage p₂ = some m₂) :
    decodeAll 3 (MsgCodec.new, p₁ ++ '\n' :: (g ++ '\n' :: (p₂ ++ ['\n']))) =
      ([.ok (some m₁), .error (), .ok (some m₂)], (MsgCodec.new, [])) := by
  have s₁ := decode_one_frame h₁n (g ++ '\n' :: (p₂ ++ ['\n']))
  rw [h₁] at s₁
  have s₂ := decode_one_frame hgn (p₂ ++ ['\n'])
  rw [hg] at s₂
  have s₃ : MsgCodec.decode ⟨0⟩ (p₂ ++ ['\n']) = (⟨0⟩, [], .ok (some m₂)) := by
    have h := decode_one_frame h₂n []
    rw [h₂] at h
    exact h
  rw [decodeAll]
  simp only [MsgCodec.new, s₁]
  rw [decodeAll]
  simp only [s₂]
  rw [decodeAll]
  simp only [s₃]
  rfl

/-- Witness for C3 at a concrete malformed middle frame. -/
theorem C3_witness :
    ('\n' ∉ toJsonString Message.Ping ∧ '\n' ∉ "garbage".toList ∧
     '\n' ∉ toJsonString Message.Pong ∧
     parseMessage (toJsonString Message.Ping) = some Message.Ping ∧
     parseMessage "garbage".toList = none ∧
     parseMessage (toJsonString Message.Pong) = some Message.Pong) ∧
    decodeAll 3 (MsgCodec.new,
        toJsonString Message.Ping ++ '\n' ::
          ("garbage".toList ++ '\n' :: (toJsonString Message.Pong ++ ['\n']))) =
      ([.ok (some Message.Ping), .error (), .ok (some Message.Pong)],
        (MsgCodec.new, [])) :=
  ⟨⟨by decide, by decide, by decide, by decide, by decide, by decide⟩,
    C3_malformed_frame_isolation _ _ _ _ _ (by decide) (by decide) (by decide)
      (by decide) (by decide) (by decide)⟩

/-- Claim C9: the decoder cursor invariant.  If `next_pos ≤ buf.length` on
entry (the bound that keeps the slice `buf[next_pos..]` taken at the start
of `decode` in bounds, so the call cannot panic), then: a need-more-bytes
return sets `next_pos` to the buffer's length and leaves the buffer
untouched; a message or parse-error return sets `next_pos` to 0; and in
every case `next_pos` stays at most the length of the returned buffer
however that buffer is later grown, so the invariant holds again at the
next call on a buffer that has only grown. -/
theorem C9_cursor_invariant (c : MsgCodec) (buf : List Char)
    (h : c.next_pos ≤ buf.length) :
    c.next_pos ≤ buf.length ∧
    ((MsgCodec.decode c buf).2.2 = .ok none →
      (MsgCodec.decode c buf).1.next_pos = buf.length ∧
      (MsgCodec.decode c buf).2.1 = buf) ∧
    (∀ m, (MsgCodec.decode c buf).2.2 = .ok (some m) →
      (MsgCodec.decode c buf).1.next_pos = 0) ∧
    ((MsgCodec.decode c buf).2.2 = .error () →
      (MsgCodec.decode c buf).1.next_pos = 0) ∧
    (∀ ext, (MsgCodec.decode c buf).1.next_pos ≤
      ((MsgCodec.decode c buf).2.1 ++ ext).length) := by
  refine ⟨h, ?_⟩
  cases hf : findNL (buf.drop c.next_pos) with
  | none =>
    have hd : MsgCodec.decode c buf = ({ next_pos := buf.length }, buf, .ok none) := by
      unfold MsgCodec.decode
      rw [hf]
    rw [hd]
    refine ⟨fun _ => ⟨rfl, rfl⟩, ?_, ?_, ?_⟩
    · intro m hm
      simp at hm
    · intro hm
      simp at hm
    · intro ext
      simp
  | some p =>
    cases hp : parseMessage (List.take (c.next_pos + p) (List.take (c.next_pos + p + 1) buf)) with
    | some m =>
      have hd : MsgCodec.decode c buf =
          (⟨0⟩, buf.drop (c.next_pos + p + 1), .ok (some m)) := by
        unfold MsgCodec.decode
        rw [hf]
        simp only [hp]
      rw [hd]
      refine ⟨?_, fun m' _ => rfl, ?_, ?_⟩
      · intro hcon
        simp at hcon
      · intro hcon
        simp at hcon
      · intro ext
        simp
    | none =>
      have hd : MsgCodec.decode c buf =
          (⟨0⟩, buf.drop (c.next_pos + p + 1), .error ()) := by
        unfold MsgCodec.decode
        rw [hf]
        simp only [hp]
      rw [hd]
      refine ⟨?_, ?_, fun _ => rfl, ?_⟩
      · intro hcon
        simp at hcon
      · intro m' hcon
        simp at hcon
      · intro ext
        simp

/-- Witness for C9 at a concrete codec state and buffer. -/
theorem C9_witness :
    ((⟨2⟩ : MsgCodec).next_pos ≤ "ab".toList.length) ∧
    ((⟨2⟩ : MsgCodec).next_pos ≤ "ab".toList.length ∧
     ((MsgCodec.decode ⟨2⟩ "ab".toList).2.2 = .ok none →
       (MsgCodec.decode ⟨2⟩ "ab".toList).1.next_pos = "ab".toList.length ∧
       (MsgCodec.decode ⟨2⟩ "ab".toList).2.1 = "ab".toList) ∧
     (∀ m, (MsgCodec.decode ⟨2⟩ "ab".toList).2.2 = .ok (some m) →
       (MsgCodec.decode ⟨2⟩ "ab".toList).1.next_pos = 0) ∧
     ((MsgCodec.decode ⟨2⟩ "ab".toList).2.2 = .error () →
       (MsgCodec.decode ⟨2⟩ "ab".toList).1.next_pos = 0) ∧
     (∀ ext, (MsgCodec.decode ⟨2⟩ "ab".toList).1.next_pos ≤
       ((MsgCodec.decode ⟨2⟩ "ab".toList).2.1 ++ ext).length)) :=
  ⟨by decide, C9_cursor_invariant ⟨2⟩ "ab".toList (by decide)⟩

/-- Claim C10: `add_new` with an already-present address silently replaces
the entry (the source discards the value returned by `HashMap::insert`, so
the old writer and terminator are dropped, never returned), and after any
sequence of `add_new`/`remove` operations starting from the empty registry
every address has at most one entry. -/
theorem C10_at_most_one_entry (g : OpenConnections) (p : SocketAddr)
    (w : PeerWriter) (t : Terminator) (ops : List RegOp) (x : SocketAddr) :
    (OpenConnections.add_new g p w t).sinks.lookup p = some ⟨p, t, w⟩ ∧
    (((applyOps OpenConnections.new ops).sinks).map Prod.fst).count x ≤ 1 := by
  constructor
  · exact Registry.lookup_insert_self _ _ _
  · exact List.nodup_iff_count_le_one.mp
      (nodup_keys_applyOps ops (by simp [OpenConnections.new])) x

/-- Claim C5, amended: `SendTo` to an unregistered address returns the
error "Connection to {addr} is not available " — which contains
"is not available", though not the literal phrase
"connection not available" — without touching the registry or writing any
bytes, and `SendTo` to a registered address succeeds, writing exactly the
framed message through that entry's writer.  The error is a value returned
to the caller, recoverable, not a process abort. -/
theorem C5_sendTo (self g : OpenConnections) (dst : SocketAddr) (m : Message) :
    (Registry.lookup g.sinks dst = none →
      OpenConnections.send self g dst m = (g, .error (connNotAvailableMsg dst)) ∧
      "is not available".toList <:+: connNotAvailableMsg dst) ∧
    (∀ ap, Registry.lookup g.sinks dst = some ap →
      (OpenConnections.send self g dst m).2 = .ok () ∧
      Registry.lookup (OpenConnections.send self g dst m).1.sinks dst
        = some (ap.send m) ∧
      (ap.send m).writer.sent = ap.writer.sent ++ encodeFrame m) := by
  constructor
  · intro h
    constructor
    · unfold OpenConnections.send
      rw [h]
    · refine ⟨"Connection to ".toList ++ dst.display ++ [' '], [' '], ?_⟩
      have hsp : " is not available ".toList = ' ' :: ("is not available".toList ++ [' ']) := by
        decide
      simp [connNotAvailableMsg, hsp]
  · intro ap h
    have hsend : OpenConnections.send self g dst m =
        (⟨Registry.update g.sinks dst (fun x => x.send m)⟩, .ok ()) := by
      unfold OpenConnections.send
      rw [h]
    refine ⟨by rw [hsend], ?_, rfl⟩
    rw [hsend]
    show Registry.lookup (Registry.update g.sinks dst _) dst = _
    rw [Registry.lookup_update_self, h]
    rfl

/-- Counterexample for C5 as stated: the error returned for an
unregistered address is "Connection to 127.0.0.1:8080 is not available ",
which does NOT contain the substring "connection not available". -/
theorem C5_counterexample :
    (OpenConnections.send OpenConnections.new OpenConnections.new
        ⟨127, 0, 0, 1, 8080⟩ .Ping).2 =
      .error (connNotAvailableMsg ⟨127, 0, 0, 1, 8080⟩) ∧
    ¬ ("connection not available".toList <:+: connNotAvailableMsg ⟨127, 0, 0, 1, 8080⟩) := by
  constructor
  · rfl
  · decide

/-- Witness for C5 at concrete registries. -/
theorem C5_witness :
    (Registry.lookup (OpenConnections.new).sinks ⟨127, 0, 0, 1, 9000⟩ = none) ∧
    (OpenConnections.send OpenConnections.new OpenConnections.new
        ⟨127, 0, 0, 1, 9000⟩ .Ping =
      (OpenConnections.new, .error (connNotAvailableMsg ⟨127, 0, 0, 1, 9000⟩)) ∧
      "is not available".toList <:+: connNotAvailableMsg ⟨127, 0, 0, 1, 9000⟩) :=
  ⟨rfl, (C5_sendTo OpenConnections.new OpenConnections.new ⟨127, 0, 0, 1, 9000⟩ .Ping).1 rfl⟩

/-- Claim C8: `OpenConnections::send` reads and mutates the process-wide
`OPEN_CONNECTION` registry rather than `self`'s own map: its result is the
same for any two receivers, and a send on a freshly constructed empty
`OpenConnections` succeeds for any address registered in the global
registry. -/
theorem C8_send_uses_global (self₁ self₂ g : OpenConnections) (dst : SocketAddr)
    (m : Message) :
    OpenConnections.send self₁ g dst m = OpenConnections.send self₂ g dst m ∧
    (∀ ap, Registry.lookup g.sinks dst = some ap →
      (OpenConnections.send OpenConnections.new g dst m).2 = .ok ()) := by
  refine ⟨rfl, fun ap h => ?_⟩
  unfold OpenConnections.send
  rw [h]

/-- Witness for C8 at a concrete global registry. -/
theorem C8_witness :
    (Registry.lookup (⟨[(⟨10, 0, 0, 2, 4000⟩, ⟨⟨10, 0, 0, 2, 4000⟩, ⟨1⟩, ⟨[]⟩⟩)]⟩ :
        OpenConnections).sinks ⟨10, 0, 0, 2, 4000⟩ =
      some ⟨⟨10, 0, 0, 2, 4000⟩, ⟨1⟩, ⟨[]⟩⟩) ∧
    (OpenConnections.send OpenConnections.new
        (⟨[(⟨10, 0, 0, 2, 4000⟩, ⟨⟨10, 0, 0, 2, 4000⟩, ⟨1⟩, ⟨[]⟩⟩)]⟩ : OpenConnections)
        ⟨10, 0, 0, 2, 4000⟩ .Ping).2 = .ok () :=
  ⟨by decide,
    (C8_send_uses_global OpenConnections.new OpenConnections.new _ _ .Ping).2
      ⟨⟨10, 0, 0, 2, 4000⟩, ⟨1⟩, ⟨[]⟩⟩ (by decide)⟩

/-- Claim C4: on `Terminate` from a registered peer, the dispatch loop
removes the entry and fires its terminator: the handler writes one final
`Terminate` frame through the handed-back writer (best-effort) and shuts
the socket down; afterwards a `SendTo` to that address fails with the
"connection not available" error.  On `Terminate` from an unregistered
peer, nothing beyond the failed removal attempt happens.  (The key-nodup
hypothesis is the registry invariant established as claim C10.) -/
theorem C4_terminate (g : OpenConnections) (peer : SocketAddr)
    (hnodup : (g.sinks.map Prod.fst).Nodup) :
    (∀ ap, Registry.lookup g.sinks peer = some ap →
      dispatchStep g .Terminate peer =
        ((g.remove peer).1, some ⟨ap.writer.send .Terminate, true⟩) ∧
      (ap.writer.send .Terminate).sent = ap.writer.sent ++ encodeFrame .Terminate ∧
      Registry.lookup ((g.remove peer).1).sinks peer = none ∧
      (∀ self m, OpenConnections.send self ((g.remove peer).1) peer m =
        ((g.remove peer).1, .error (connNotAvailableMsg peer)))) ∧
    (Registry.lookup g.sinks peer = none →
      dispatchStep g .Terminate peer = (g, none)) := by
  constructor
  · intro ap h
    have h2 : (g.remove peer).2 = some ap := by
      show (Registry.remove g.sinks peer).2 = some ap
      rw [Registry.remove_snd]
      exact h
    have hrem : g.remove peer = ((g.remove peer).1, some ap) := by
      rw [← h2]
    have hl : Registry.lookup ((g.remove peer).1).sinks peer = none :=
      Registry.lookup_remove_self hnodup peer
    refine ⟨?_, rfl, hl, ?_⟩
    · unfold dispatchStep
      rw [hrem]
      rfl
    · intro self m
      unfold OpenConnections.send
      rw [hl]
  · intro h
    have hrem : g.remove peer = (g, none) := by
      unfold OpenConnections.remove
      rw [Registry.remove_of_lookup_none h]
    unfold dispatchStep
    rw [hrem]

/-- Witness for C4 at a concrete one-entry registry. -/
theorem C4_witness :
    (((⟨[(⟨127, 0, 0, 1, 7000⟩, ⟨⟨127, 0, 0, 1, 7000⟩, ⟨0⟩, ⟨[]⟩⟩)]⟩ :
          OpenConnections).sinks.map Prod.fst).Nodup ∧
      Registry.lookup (⟨[(⟨127, 0, 0, 1, 7000⟩, ⟨⟨127, 0, 0, 1, 7000⟩, ⟨0⟩, ⟨[]⟩⟩)]⟩ :
          OpenConnections).sinks ⟨127, 0, 0, 1, 7000⟩ =
        some ⟨⟨127, 0, 0, 1, 7000⟩, ⟨0⟩, ⟨[]⟩⟩) ∧
    dispatchStep (⟨[(⟨127, 0, 0, 1, 7000⟩, ⟨⟨127, 0, 0, 1, 7000⟩, ⟨0⟩, ⟨[]⟩⟩)]⟩ :
        OpenConnections) .Terminate ⟨127, 0, 0, 1, 7000⟩ =
      (((⟨[(⟨127, 0, 0, 1, 7000⟩, ⟨⟨127, 0, 0, 1, 7000⟩, ⟨0⟩, ⟨[]⟩⟩)]⟩ :
          OpenConnections).remove ⟨127, 0, 0, 1, 7000⟩).1,
        some ⟨(⟨[]⟩ : PeerWriter).send .Terminate, true⟩) :=
  ⟨⟨by decide, by decide⟩,
    ((C4_terminate _ _ (by decide)).1 ⟨⟨127, 0, 0, 1, 7000⟩, ⟨0⟩, ⟨[]⟩⟩ (by decide)).1⟩

/-- Claim C1 (code behaviour at the claimed failing input): when the first
decoded message after the local Hello is `Ping` — a handshake failure —
the peer is NOT registered, but the handler does not abandon the
connection: a `Pong` arriving next IS forwarded to the dispatch loop,
contradicting the claim that the connection is closed and no message from
it is ever forwarded.  The same happens when the first read is a
decode/transport error. -/
theorem C1_failed_handshake_still_forwards :
    handlerAfterHello (.msg .Ping) [.read (.msg .Pong)] = (false, [.Pong]) ∧
    handlerAfterHello .readErr [.read (.msg .Ping)] = (false, [.Ping]) := by
  constructor <;> rfl

/-- Claim C6 (code behaviour at the claimed failing input): a socket whose
`peer_addr()` fails makes `handle_connection` panic on its first line,
contradicting the claim that every transport error during connection
handling — including failure to obtain the peer address — is non-fatal. -/
theorem C6_peer_addr_failure_panics :
    handleConnectionEntry none = .panicked ∧
    ∀ p, handleConnectionEntry (some p) = .proceeded p := by
  exact ⟨rfl, fun p => rfl⟩

end P2pmsg
